import Mathlib

/-
Verification development for the running_session_analysis repository.

The embedding below translates the temporal-segmentation and classification
pipeline of src/server/extract_fit_file.py and
src/server/extract_fit_file_for_V3.py into Lean definitions:

* lap-nature classification (classify_lap_nature_by_speed, lines 32-91 of
  extract_fit_file.py), with pandas NaN semantics modelled by Option:
  a missing or unparseable speed is the value none, and every comparison
  against none is false, exactly as a NaN comparison in pandas;
* the moving-time stage (lines 140-154 of extract_fit_file.py, lines 83-101
  of extract_fit_file_for_V3.py), with real arithmetic modelled by rational
  numbers and the numpy 1-decimal rounding modelled by round-half-even;
* the minutes-seconds formatters (format_seconds_to_min_sec,
  format_seconds_to_hms), with Python decimal rendering implemented by an
  explicit digit renderer;
* the lap-number assignment loop of add_lap_info (lines 214-229 of
  extract_fit_file.py);
* the record-table shape of parse_fit and parse_fit_records at the column
  granularity the claims quantify over: a column is either wholly present
  (a total list of rational values) or wholly absent (none).
-/

/-- LapNature is the closed set of lap phase labels used by the pipeline. -/
inductive LapNature where
  | unknown
  | warmUp
  | intensity
  | recovery
  | coolDown
deriving DecidableEq, Repr

/-- Speed of a lap in km per hour; none models the NaN obtained by pandas
when avg_speed is missing or unparseable (to_numeric with errors coerce). -/
abbrev Speed := Option ℚ

/-- Comparison speed > t; a NaN speed compares false, as in pandas. -/
def spGT (s : Speed) (t : ℚ) : Bool :=
  match s with
  | none => false
  | some q => decide (t < q)

/-- Comparison speed < t; a NaN speed compares false, as in pandas. -/
def spLT (s : Speed) (t : ℚ) : Bool :=
  match s with
  | none => false
  | some q => decide (q < t)

/-- Pandas between with inclusive both ends; false on a NaN speed. -/
def spBetween (s : Speed) (lo hi : ℚ) : Bool :=
  match s with
  | none => false
  | some q => decide (lo ≤ q) && decide (q ≤ hi)

/-- Threshold INTENSITY_SPEED_THRESHOLD = 17.05 from extract_fit_file.py. -/
def INTENSITY_SPEED_THRESHOLD : ℚ := 1705 / 100

/-- Threshold RECOVERY_SPEED_THRESHOLD = 8.65 from extract_fit_file.py. -/
def RECOVERY_SPEED_THRESHOLD : ℚ := 865 / 100

/-- Step 1 of the classification: label Intensity when speed > 17.05,
otherwise keep the initial Unknown label. -/
def step1Label (s : Speed) : LapNature :=
  if spGT s INTENSITY_SPEED_THRESHOLD then .intensity else .unknown

/-- There is at least one Intensity lap (the mask_intensity test of the code
is nonempty). -/
def hasIntensity (speeds : List Speed) : Bool :=
  speeds.any (fun s => spGT s INTENSITY_SPEED_THRESHOLD)

/-- Position of the first Intensity lap (index min over the intensity mask). -/
def firstIntensityIdx (speeds : List Speed) : Nat :=
  speeds.findIdx (fun s => spGT s INTENSITY_SPEED_THRESHOLD)

/-- Position of the last Intensity lap (index max over the intensity mask). -/
def lastIntensityIdx (speeds : List Speed) : Nat :=
  speeds.length - 1 - speeds.reverse.findIdx (fun s => spGT s INTENSITY_SPEED_THRESHOLD)

/-- Label of lap i after the Intensity, Warm-up and Cool-down masks of
classify_lap_nature_by_speed (the masks are pairwise disjoint, so the
sequence of pandas loc-assignments is this single conditional). -/
def preLabel (first last : Nat) (i : Nat) (s : Speed) : LapNature :=
  if spGT s INTENSITY_SPEED_THRESHOLD then .intensity
  else if i < first ∧ spBetween s RECOVERY_SPEED_THRESHOLD INTENSITY_SPEED_THRESHOLD then .warmUp
  else if last < i ∧ spBetween s RECOVERY_SPEED_THRESHOLD INTENSITY_SPEED_THRESHOLD then .coolDown
  else .unknown

/-- Each lap paired with its label after the first three masks. -/
def prePairs (speeds : List Speed) (first last : Nat) : List (Speed × LapNature) :=
  (List.range speeds.length).map fun i =>
    (speeds.getD i none, preLabel first last i (speeds.getD i none))

/-- The vectorized Recovery step of the code: prev_lap_nature is the shift of
the label column produced by the first three masks, so the comparison at
each position uses the unmodified label of the previous position; the
argument p carries that previous original label (none at position 0, where
the shifted column holds NaN). -/
def vecPass : Option LapNature → List (Speed × LapNature) → List LapNature
  | _, [] => []
  | p, (s, l) :: rest =>
      (if spLT s RECOVERY_SPEED_THRESHOLD ∧ p = some LapNature.intensity
        then LapNature.recovery else l) :: vecPass (some l) rest

/-- Modelled from the spec: the sequential left-to-right Recovery pass of
spec step 6, in which the test reads the already-assigned label of the
immediately preceding lap, i.e. the label as updated by the pass itself. -/
def seqPass : Option LapNature → List (Speed × LapNature) → List LapNature
  | _, [] => []
  | p, (s, l) :: rest =>
      let l2 := if spLT s RECOVERY_SPEED_THRESHOLD ∧ p = some LapNature.intensity
        then LapNature.recovery else l
      l2 :: seqPass (some l2) rest

/-- Default fill of the interior of the work-rest block: any lap still
Unknown with index between the first and last Intensity positions becomes
Recovery (mask_remaining_unknown of the code). -/
def applyFill (first last : Nat) (ls : List LapNature) : List LapNature :=
  (List.range ls.length).map fun i =>
    if ls.getD i .unknown = .unknown ∧ first ≤ i ∧ i ≤ last
    then LapNature.recovery else ls.getD i .unknown

/-- Classification of lap natures by average speed, translated from
classify_lap_nature_by_speed of extract_fit_file.py: Intensity, Warm-up and
Cool-down masks, shift-based Recovery step, default fill between the first
and last Intensity laps; when no lap is Intensity every still-Unknown lap
becomes Warm-up. -/
def classify_lap_nature_by_speed (speeds : List Speed) : List LapNature :=
  if hasIntensity speeds then
    applyFill (firstIntensityIdx speeds) (lastIntensityIdx speeds)
      (vecPass none (prePairs speeds (firstIntensityIdx speeds) (lastIntensityIdx speeds)))
  else
    (speeds.map step1Label).map fun l => if l = .unknown then .warmUp else l

/-- Modelled from the spec: the same classification with the Recovery step
performed as the sequential pass of spec step 6 instead of the shift-based
vectorized evaluation. -/
def classify_lap_nature_sequential_spec (speeds : List Speed) : List LapNature :=
  if hasIntensity speeds then
    applyFill (firstIntensityIdx speeds) (lastIntensityIdx speeds)
      (seqPass none (prePairs speeds (firstIntensityIdx speeds) (lastIntensityIdx speeds)))
  else
    (speeds.map step1Label).map fun l => if l = .unknown then .warmUp else l

/-- Label of the lap immediately before position i, as read by the shifted
label column: at position 0 it is the initial value (NaN), otherwise the
original label of position i - 1. -/
def prevLabel (p : Option LapNature) (l : List (Speed × LapNature)) : Nat → Option LapNature
  | 0 => p
  | i + 1 => some (l.getD i (none, .unknown)).2

/-- Round-half-even of a rational to an integer: the rounding mode of
numpy round (banker rounding), on the exact rational value. -/
def roundHalfEven (q : ℚ) : ℤ :=
  if q - (⌊q⌋ : ℚ) < 1 / 2 then ⌊q⌋
  else if 1 / 2 < q - (⌊q⌋ : ℚ) then ⌊q⌋ + 1
  else if ⌊q⌋ % 2 = 0 then ⌊q⌋ else ⌊q⌋ + 1

/-- Rounding to one decimal, as np round with decimals equal to 1. -/
def round1 (q : ℚ) : ℚ := (roundHalfEven (10 * q) : ℚ) / 10

/-- A rational that is a whole number of tenths, i.e. exactly representable
at one decimal. -/
def isTenth (q : ℚ) : Prop := ∃ k : ℤ, q = (k : ℚ) / 10

/-- Threshold PAUSE_TIME_THRESHOLD_S = 10.0 of the two source files. -/
def PAUSE_TIME_THRESHOLD_S : ℚ := 10

/-- Threshold PAUSE_DISTANCE_THRESHOLD_M = 1.0 of the two source files. -/
def PAUSE_DISTANCE_THRESHOLD_M : ℚ := 1

/-- Pause correction of sample i: the diffs dt and dd of the elapsed and
distance columns, with dt minus one second when the sample is a real pause
(dt at least 10 seconds and dd at most 1 meter), zero otherwise; sample 0
gets zero (its diff row is NaN, and the code forces row 0 to zero). -/
def pauseCorrection (elapsed dist : List ℚ) (i : Nat) : ℚ :=
  if i = 0 then 0
  else
    if PAUSE_TIME_THRESHOLD_S ≤ elapsed.getD i 0 - elapsed.getD (i - 1) 0 ∧
        dist.getD i 0 - dist.getD (i - 1) 0 ≤ PAUSE_DISTANCE_THRESHOLD_M
    then elapsed.getD i 0 - elapsed.getD (i - 1) 0 - 1 else 0

/-- Cumulative sum of the pause corrections up to sample i. -/
def cumulativePause (elapsed dist : List ℚ) : Nat → ℚ
  | 0 => pauseCorrection elapsed dist 0
  | i + 1 => cumulativePause elapsed dist i + pauseCorrection elapsed dist (i + 1)

/-- Moving elapsed time of sample i: elapsed time minus the cumulative
pause, rounded to one decimal. -/
def movingAt (elapsed dist : List ℚ) (i : Nat) : ℚ :=
  round1 (elapsed.getD i 0 - cumulativePause elapsed dist i)

/-- The moving_elapsed_time_s column computed from the elapsed_time_s and
distance columns. -/
def movingList (elapsed dist : List ℚ) : List ℚ :=
  (List.range elapsed.length).map (movingAt elapsed dist)

/-- The elapsed_time_s column derived from the sorted timestamp column:
each timestamp minus the first one. -/
def elapsedFromTimestamps (ts : List ℚ) : List ℚ :=
  ts.map fun t => t - ts.getD 0 0

/-- Decimal digit character, for digits 0 to 9. -/
def digitChar (n : Nat) : Char :=
  match n with
  | 0 => '0'
  | 1 => '1'
  | 2 => '2'
  | 3 => '3'
  | 4 => '4'
  | 5 => '5'
  | 6 => '6'
  | 7 => '7'
  | 8 => '8'
  | _ => '9'

/-- Decimal digits of a natural number, most significant digit first: the
rendering performed by the Python d format conversion. -/
def decDigits (n : Nat) : List Char :=
  if _h : n < 10 then [digitChar n]
  else decDigits (n / 10) ++ [digitChar (n % 10)]
termination_by n
decreasing_by exact Nat.div_lt_self (by omega) (by omega)

/-- Numeric value of a digit string; the inverse of the renderer, used to
prove the renderer injective. -/
def decVal : List Char → Nat
  | [] => 0
  | c :: cs => (c.toNat - 48) * 10 ^ cs.length + decVal cs

/-- Python 02d formatting of a natural number: zero-padded to width two. -/
def pad2 (n : Nat) : List Char :=
  if n < 10 then '0' :: decDigits n else decDigits n

/-- Python 02d formatting of an integer: a negative value takes a minus
sign (the sign consumes the padding width). -/
def intPad2 (z : ℤ) : List Char :=
  if z < 0 then '-' :: decDigits (-z).toNat else pad2 z.toNat

/-- Python d formatting of an integer, unpadded. -/
def intChars (z : ℤ) : List Char :=
  if z < 0 then '-' :: decDigits (-z).toNat else decDigits z.toNat

/-- Python int truncation of a rational toward zero. -/
def pyInt (q : ℚ) : ℤ := if q < 0 then ⌈q⌉ else ⌊q⌋

/-- Character content of the MM colon SS rendering of a total-second count:
minutes is the floor quotient by 60 and seconds the floor remainder, both
zero-padded to width two; Python floor division and modulo on the positive
divisor 60 coincide with Euclidean division, which is what the integer
division and modulo of this embedding compute. -/
def minSecChars (total : ℤ) : List Char :=
  intPad2 (total / 60) ++ ':' :: intPad2 (total % 60)

/-- Translation of format_seconds_to_min_sec of extract_fit_file.py applied
to a non-NaN value. -/
def format_seconds_to_min_sec (q : ℚ) : String :=
  String.mk (minSecChars (pyInt q))

/-- Character content of the MM colon SS part of the H colon MM colon SS
rendering: minutes of the hour and seconds of the minute. -/
def msTail (total : ℤ) : List Char :=
  intPad2 ((total % 3600) / 60) ++ ':' :: intPad2 (total % 60)

/-- Character content of the rendering used by format_seconds_to_hms:
hours prefixed when positive, otherwise only minutes and seconds. -/
def hmsChars (total : ℤ) : List Char :=
  if 0 < total / 3600 then intChars (total / 3600) ++ ':' :: msTail total
  else msTail total

/-- Translation of format_seconds_to_hms of extract_fit_file_for_V3.py
applied to a non-NaN value. -/
def format_seconds_to_hms (q : ℚ) : String :=
  String.mk (hmsChars (pyInt q))

/-- The interval test of the lap-assignment loop of add_lap_info, for the
0-based lap position k: the sample timestamp lies at or after the lap start
and strictly before the next lap start, where the last lap uses the maximal
sample timestamp plus one second as its open upper bound. -/
abbrev lapMatch (starts : List ℚ) (maxTs t : ℚ) (k : Nat) : Prop :=
  starts.getD k 0 ≤ t ∧
    t < (if k + 1 < starts.length then starts.getD (k + 1) 0 else maxTs + 1)

/-- The lap-assignment loop of add_lap_info: the masks are applied in lap
order with overwrite semantics, starting from the sentinel value 0. -/
def lapFold (starts : List ℚ) (maxTs t : ℚ) : Nat :=
  (List.range starts.length).foldl
    (fun acc k => if lapMatch starts maxTs t k then k + 1 else acc) 0

/-- Lap number of one sample: the loop result, with the samples still at
the sentinel 0 falling back to the last lap. -/
def lapNumber (starts : List ℚ) (maxTs t : ℚ) : Nat :=
  if lapFold starts maxTs t = 0 then starts.length else lapFold starts maxTs t

/-- Maximum of the timestamp column. -/
def maxTimestamp (ts : List ℚ) : ℚ := ts.foldl max (ts.getD 0 0)

/-- The lap_number column produced by add_lap_info for the sorted sample
timestamps, given the sorted usable lap start times. -/
def add_lap_info_lap_numbers (starts ts : List ℚ) : List Nat :=
  ts.map (lapNumber starts (maxTimestamp ts))

/-- One decoded record message, restricted to the fields the claims need;
a missing field is none. The model takes the records already sorted by
timestamp (the normalizer sort output). -/
structure SampleRow where
  timestamp : Option ℚ
  distance : Option ℚ

/-- Column extraction from the record rows: the claims quantify only over
columns that are wholly present (every row carries the field) or wholly
absent, so the model returns the value list when every row has the field
and no column otherwise; a partially present pandas column would hold NaN
values, which no claim exercises. -/
def column (f : SampleRow → Option ℚ) (rows : List SampleRow) : Option (List ℚ) :=
  if rows.isEmpty then none
  else if ∀ r ∈ rows, (f r).isSome
  then some (rows.map fun r => (f r).getD 0) else none

/-- The per-sample output columns of parse_fit of extract_fit_file.py that
the claims inspect; none means the column is absent from the table. -/
structure RecordTable where
  elapsed_time_s : Option (List ℚ)
  distance : Option (List ℚ)
  moving_elapsed_time_s : Option (List ℚ)
  elapsed_time_min_sec : Option (List String)

/-- The per-sample output columns of parse_fit_records of
extract_fit_file_for_V3.py that the claims inspect. -/
structure RecordTableV3 where
  elapsed_time_s : Option (List ℚ)
  distance : Option (List ℚ)
  moving_elapsed_time_s : Option (List ℚ)
  elapsed_time_hms : Option (List String)

/-- Translation of the record pipeline of parse_fit of extract_fit_file.py
for the stages the claims inspect: the fatal no-record check, the elapsed
time derived from sorted timestamps, the moving-time stage guarded on both
the elapsed and distance columns, and the formatted-time stage guarded on
the elapsed column only while reading the moving column — reading a column
absent from a pandas frame raises a KeyError, modelled by the error
result. The lap stages of the source (add_lap_info and the in-lap elapsed
time) add further columns and never raise; they are modelled separately by
add_lap_info_lap_numbers and classify_lap_nature_by_speed. -/
def parse_fit (rows : List SampleRow) : Except String RecordTable :=
  if rows.isEmpty then Except.error "Aucun record trouvé dans le fichier .fit"
  else
    match column SampleRow.timestamp rows, column SampleRow.distance rows with
    | some ts, some d =>
        Except.ok
          { elapsed_time_s := some (elapsedFromTimestamps ts)
            distance := some d
            moving_elapsed_time_s := some (movingList (elapsedFromTimestamps ts) d)
            elapsed_time_min_sec :=
              some ((movingList (elapsedFromTimestamps ts) d).map
                format_seconds_to_min_sec) }
    | some _, none => Except.error "KeyError: moving_elapsed_time_s"
    | none, d =>
        Except.ok
          { elapsed_time_s := none
            distance := d
            moving_elapsed_time_s := none
            elapsed_time_min_sec := none }

/-- Translation of parse_fit_records of extract_fit_file_for_V3.py for the
same stages: the elapsed time is additionally rounded to one decimal, and
the formatted-time stage is guarded on the moving column itself, so a
missing distance column skips both stages without error. -/
def parse_fit_records (rows : List SampleRow) : Except String RecordTableV3 :=
  if rows.isEmpty then Except.error "Aucun record trouvé dans le fichier .fit"
  else
    match column SampleRow.timestamp rows, column SampleRow.distance rows with
    | some ts, some d =>
        Except.ok
          { elapsed_time_s := some ((elapsedFromTimestamps ts).map round1)
            distance := some d
            moving_elapsed_time_s :=
              some (movingList ((elapsedFromTimestamps ts).map round1) d)
            elapsed_time_hms :=
              some ((movingList ((elapsedFromTimestamps ts).map round1) d).map
                format_seconds_to_hms) }
    | some ts, none =>
        Except.ok
          { elapsed_time_s := some ((elapsedFromTimestamps ts).map round1)
            distance := none
            moving_elapsed_time_s := none
            elapsed_time_hms := none }
    | none, d =>
        Except.ok
          { elapsed_time_s := none
            distance := d
            moving_elapsed_time_s := none
            elapsed_time_hms := none }

theorem spGT_not_spLT {s : Speed}
    (h : spGT s INTENSITY_SPEED_THRESHOLD = true) :
    spLT s RECOVERY_SPEED_THRESHOLD = false := by
  cases s with
  | none => simp [spGT] at h
  | some q =>
      simp only [spGT, decide_eq_true_eq] at h
      simp only [spLT, decide_eq_false_iff_not, not_lt]
      unfold INTENSITY_SPEED_THRESHOLD at h
      unfold RECOVERY_SPEED_THRESHOLD
      linarith

theorem preLabel_intensity {first last i : Nat} {s : Speed}
    (h : preLabel first last i s = .intensity) :
    spGT s INTENSITY_SPEED_THRESHOLD = true := by
  unfold preLabel at h
  split at h
  · assumption
  · split at h
    · simp at h
    · split at h
      · simp at h
      · simp at h

theorem seqPass_eq_vecPass :
    ∀ (l : List (Speed × LapNature)) (p q : Option LapNature),
      (∀ x ∈ l, x.2 = LapNature.intensity → spLT x.1 RECOVERY_SPEED_THRESHOLD = false) →
      ((p = some LapNature.intensity) ↔ (q = some LapNature.intensity)) →
      seqPass p l = vecPass q l := by
  intro l
  induction l with
  | nil => intro p q _ _; rfl
  | cons hd tl ih =>
      rintro p q hinv hiff
      obtain ⟨s, lab⟩ := hd
      by_cases hc : spLT s RECOVERY_SPEED_THRESHOLD = true ∧ p = some LapNature.intensity
      · have hcq : spLT s RECOVERY_SPEED_THRESHOLD = true ∧ q = some LapNature.intensity :=
          ⟨hc.1, hiff.mp hc.2⟩
        have hlab : lab ≠ LapNature.intensity := by
          intro he
          have := hinv (s, lab) (List.mem_cons_self _ _) he
          rw [hc.1] at this
          exact absurd this (by decide)
        simp only [seqPass, vecPass, if_pos hc, if_pos hcq]
        refine congrArg _ ?_
        exact ih (some LapNature.recovery) (some lab)
          (fun x hx => hinv x (List.mem_cons_of_mem _ hx))
          (by constructor <;> intro h <;> simp_all)
      · have hcq : ¬ (spLT s RECOVERY_SPEED_THRESHOLD = true ∧ q = some LapNature.intensity) := by
          intro h
          exact hc ⟨h.1, hiff.mpr h.2⟩
        simp only [seqPass, vecPass, if_neg hc, if_neg hcq]
        refine congrArg _ ?_
        exact ih (some lab) (some lab)
          (fun x hx => hinv x (List.mem_cons_of_mem _ hx)) Iff.rfl

theorem prePairs_invariant (speeds : List Speed) (first last : Nat) :
    ∀ x ∈ prePairs speeds first last,
      x.2 = LapNature.intensity → spLT x.1 RECOVERY_SPEED_THRESHOLD = false := by
  intro x hx h2
  unfold prePairs at hx
  obtain ⟨i, _, rfl⟩ := List.mem_map.mp hx
  exact spGT_not_spLT (preLabel_intensity h2)

/-- C1: the concrete five-lap scenario from the spec classifies as
Unknown, Warm-up, Intensity, Recovery, Cool-down; in particular the
index-0 lap, below the recovery threshold with no qualifying predecessor,
stays Unknown. -/
theorem C1_concrete_scenario :
    classify_lap_nature_by_speed
        [some 5, some 10, some 18, some 6, some 9] =
      [.unknown, .warmUp, .intensity, .recovery, .coolDown] := by
  norm_num [classify_lap_nature_by_speed, hasIntensity, firstIntensityIdx,
    lastIntensityIdx, applyFill, prePairs, vecPass, preLabel, step1Label,
    spGT, spLT, spBetween, List.findIdx_cons, List.range_succ,
    INTENSITY_SPEED_THRESHOLD, RECOVERY_SPEED_THRESHOLD]
  decide

/-- C2: the shift-based vectorized Recovery evaluation of the code computes
the same classification as the sequential left-to-right pass specified by
the spec, for every ordered lap list. -/
theorem C2_vectorized_eq_sequential (speeds : List Speed) :
    classify_lap_nature_by_speed speeds = classify_lap_nature_sequential_spec speeds := by
  unfold classify_lap_nature_by_speed classify_lap_nature_sequential_spec
  by_cases h : hasIntensity speeds = true
  · rw [if_pos h, if_pos h]
    refine congrArg _ ?_
    exact (seqPass_eq_vecPass _ none none
      (prePairs_invariant speeds _ _) Iff.rfl).symm
  · rw [if_neg h, if_neg h]

theorem vecPass_length (p : Option LapNature) (l : List (Speed × LapNature)) :
    (vecPass p l).length = l.length := by
  induction l generalizing p with
  | nil => rfl
  | cons hd tl ih => obtain ⟨s, lab⟩ := hd; simp [vecPass, ih]

theorem vecPass_getD (l : List (Speed × LapNature)) (p : Option LapNature)
    (i : Nat) (h : i < l.length) :
    (vecPass p l).getD i .unknown =
      if spLT (l.getD i (none, .unknown)).1 RECOVERY_SPEED_THRESHOLD ∧
          prevLabel p l i = some LapNature.intensity
      then LapNature.recovery else (l.getD i (none, .unknown)).2 := by
  induction l generalizing p i with
  | nil => simp at h
  | cons hd tl ih =>
      obtain ⟨s, lab⟩ := hd
      cases i with
      | zero => simp [vecPass, prevLabel]
      | succ j =>
          have hj : j < tl.length := by simpa using h
          cases j with
          | zero => simpa [vecPass, prevLabel] using ih (some lab) 0 hj
          | succ k => simpa [vecPass, prevLabel] using ih (some lab) (k + 1) hj

theorem prePairs_length (speeds : List Speed) (first last : Nat) :
    (prePairs speeds first last).length = speeds.length := by
  simp [prePairs]

theorem prePairs_getD (speeds : List Speed) (first last : Nat)
    (i : Nat) (h : i < speeds.length) :
    (prePairs speeds first last).getD i (none, .unknown) =
      (speeds.getD i none, preLabel first last i (speeds.getD i none)) := by
  have hlen : i < (prePairs speeds first last).length := by
    rw [prePairs_length]; exact h
  rw [List.getD_eq_getElem _ _ hlen]
  simp [prePairs]

theorem applyFill_length (first last : Nat) (ls : List LapNature) :
    (applyFill first last ls).length = ls.length := by
  simp [applyFill]

theorem applyFill_getD (first last : Nat) (ls : List LapNature)
    (i : Nat) (h : i < ls.length) :
    (applyFill first last ls).getD i .unknown =
      if ls.getD i .unknown = .unknown ∧ first ≤ i ∧ i ≤ last
      then LapNature.recovery else ls.getD i .unknown := by
  have hlen : i < (applyFill first last ls).length := by
    rw [applyFill_length]; exact h
  rw [List.getD_eq_getElem _ _ hlen]
  simp [applyFill]

theorem classify_length (speeds : List Speed) :
    (classify_lap_nature_by_speed speeds).length = speeds.length := by
  unfold classify_lap_nature_by_speed
  split
  · rw [applyFill_length, vecPass_length, prePairs_length]
  · simp

/-- C6 counterexample: for the single-lap list whose speed is NaN there is
no Intensity lap, so the classification gives that lap Warm-up, not the
Unknown (or default-fill Recovery) outcome the claim describes. -/
theorem C6_counterexample :
    hasIntensity [(none : Speed)] = false ∧
    (classify_lap_nature_by_speed [(none : Speed)]).getD 0 .unknown = .warmUp ∧
    ¬ ((classify_lap_nature_by_speed [(none : Speed)]).getD 0 .unknown = .unknown ∨
        (hasIntensity [(none : Speed)] = true ∧
          firstIntensityIdx [(none : Speed)] ≤ 0 ∧
          0 ≤ lastIntensityIdx [(none : Speed)])) := by
  refine ⟨rfl, rfl, ?_⟩
  intro h
  rcases h with h | h
  · exact absurd h (by decide)
  · exact absurd h.1 (by decide)

/-- C6 amended: a lap with NaN speed matches no threshold test, so when at
least one lap is Intensity it stays Unknown unless the default fill of the
work-rest interior turns it into Recovery; when no lap is Intensity it is
caught by the all-Warm-up rule instead of staying Unknown. -/
theorem classify_no_intensity (speeds : List Speed)
    (hnone : hasIntensity speeds = false) :
    classify_lap_nature_by_speed speeds =
      List.replicate speeds.length LapNature.warmUp := by
  have hslow : ∀ s ∈ speeds, spGT s INTENSITY_SPEED_THRESHOLD = false := by
    intro s hs
    have := List.any_eq_false.mp hnone s hs
    revert this
    cases spGT s INTENSITY_SPEED_THRESHOLD <;> simp
  unfold classify_lap_nature_by_speed
  rw [hnone]
  simp only [Bool.false_eq_true, if_false]
  refine List.eq_replicate_iff.mpr ⟨by simp, ?_⟩
  intro b hb
  simp only [List.mem_map] at hb
  obtain ⟨l, ⟨s, hs, rfl⟩, rfl⟩ := hb
  have : step1Label s = .unknown := by
    unfold step1Label
    rw [hslow s hs]
    rfl
  rw [this]
  rfl

theorem C6_nan_lap_outcome (speeds : List Speed) (i : Nat)
    (hi : i < speeds.length) (hnan : speeds.getD i none = none) :
    if hasIntensity speeds then
      (classify_lap_nature_by_speed speeds).getD i .unknown = .unknown ∨
        ((classify_lap_nature_by_speed speeds).getD i .unknown = .recovery ∧
          firstIntensityIdx speeds ≤ i ∧ i ≤ lastIntensityIdx speeds)
    else (classify_lap_nature_by_speed speeds).getD i .unknown = .warmUp := by
  by_cases h : hasIntensity speeds = true
  · rw [if_pos h]
    unfold classify_lap_nature_by_speed
    rw [if_pos h]
    set first := firstIntensityIdx speeds
    set last := lastIntensityIdx speeds
    have hvlen : i < (vecPass none (prePairs speeds first last)).length := by
      rw [vecPass_length, prePairs_length]; exact hi
    have hpre : preLabel first last i none = .unknown := by
      simp [preLabel, spGT, spBetween]
    have hvec : (vecPass none (prePairs speeds first last)).getD i .unknown =
        LapNature.unknown := by
      rw [vecPass_getD _ _ _ (by rw [prePairs_length]; exact hi),
        prePairs_getD _ _ _ _ hi, hnan, hpre]
      rw [if_neg]
      rintro ⟨h1, -⟩
      exact absurd h1 (by decide)
    rw [applyFill_getD _ _ _ _ hvlen, hvec]
    by_cases hb : first ≤ i ∧ i ≤ last
    · right
      exact ⟨by rw [if_pos ⟨rfl, hb.1, hb.2⟩], hb⟩
    · left
      rw [if_neg (by tauto)]
  · rw [if_neg h]
    have hnone : hasIntensity speeds = false := by
      revert h; cases hasIntensity speeds <;> simp
    rw [classify_no_intensity speeds hnone,
      List.getD_eq_getElem _ _ (by simpa using hi)]
    simp

/-- C7: when no lap exceeds the 17.05 intensity threshold, every lap of a
nonempty ordered lap list is classified Warm-up. -/
theorem C7_all_warmup (speeds : List Speed) (_hne : speeds ≠ [])
    (hslow : ∀ s ∈ speeds, spGT s INTENSITY_SPEED_THRESHOLD = false) :
    classify_lap_nature_by_speed speeds =
      List.replicate speeds.length LapNature.warmUp := by
  have hnone : hasIntensity speeds = false :=
    List.any_eq_false.mpr (fun x hx => by rw [hslow x hx]; exact fun h => absurd h (by decide))
  exact classify_no_intensity speeds hnone

/-- C7 witness at the concrete lap list with speeds 5 and 10 km per hour. -/
theorem C7_all_warmup_witness :
    classify_lap_nature_by_speed [some 5, some 10] =
      List.replicate 2 LapNature.warmUp :=
  C7_all_warmup [some 5, some 10] (by decide)
    (by
      intro s hs
      simp only [List.mem_cons, List.not_mem_nil, or_false] at hs
      rcases hs with rfl | rfl <;>
        norm_num [spGT, INTENSITY_SPEED_THRESHOLD])

/-- C6 witness: the two-lap list with an Intensity first lap and a NaN
second lap, instantiating the amended claim at index 1. -/
theorem C6_nan_lap_outcome_witness :
    if hasIntensity [some 18, (none : Speed)] then
      (classify_lap_nature_by_speed [some 18, (none : Speed)]).getD 1 .unknown = .unknown ∨
        ((classify_lap_nature_by_speed [some 18, (none : Speed)]).getD 1 .unknown = .recovery ∧
          firstIntensityIdx [some 18, (none : Speed)] ≤ 1 ∧
          1 ≤ lastIntensityIdx [some 18, (none : Speed)])
    else (classify_lap_nature_by_speed [some 18, (none : Speed)]).getD 1 .unknown = .warmUp :=
  C6_nan_lap_outcome [some 18, none] 1 (by decide) (by decide)

theorem isTenth_sub {a b : ℚ} (ha : isTenth a) (hb : isTenth b) :
    isTenth (a - b) := by
  obtain ⟨k, rfl⟩ := ha
  obtain ⟨m, rfl⟩ := hb
  exact ⟨k - m, by push_cast; ring⟩

theorem isTenth_add {a b : ℚ} (ha : isTenth a) (hb : isTenth b) :
    isTenth (a + b) := by
  obtain ⟨k, rfl⟩ := ha
  obtain ⟨m, rfl⟩ := hb
  exact ⟨k + m, by push_cast; ring⟩

theorem isTenth_zero : isTenth 0 := ⟨0, by norm_num⟩

theorem isTenth_one : isTenth 1 := ⟨10, by norm_num⟩

theorem roundHalfEven_intCast (k : ℤ) : roundHalfEven (k : ℚ) = k := by
  unfold roundHalfEven
  rw [Int.floor_intCast, sub_self, if_pos (by norm_num)]

theorem round1_eq_self {q : ℚ} (h : isTenth q) : round1 q = q := by
  obtain ⟨k, rfl⟩ := h
  have h10 : (10 : ℚ) * ((k : ℚ) / 10) = (k : ℚ) := by field_simp
  unfold round1
  rw [h10, roundHalfEven_intCast]

theorem roundHalfEven_le (q : ℚ) : (roundHalfEven q : ℚ) ≤ q + 1 / 2 := by
  unfold roundHalfEven
  have h1 := Int.floor_le q
  split
  · linarith
  · split
    · push_cast
      linarith
    · split
      · linarith
      · push_cast
        rename_i hA hB _
        have : q - (⌊q⌋ : ℚ) = 1 / 2 := le_antisymm (not_lt.mp hB) (not_lt.mp hA)
        linarith

theorem roundHalfEven_ge (q : ℚ) : q - 1 / 2 ≤ (roundHalfEven q : ℚ) := by
  unfold roundHalfEven
  have h1 := Int.floor_le q
  have h2 := Int.lt_floor_add_one q
  split
  · rename_i hA
    linarith
  · split
    · push_cast
      linarith
    · split
      · rename_i hA _ _
        linarith [not_lt.mp hA]
      · push_cast
        linarith

theorem floor_le_roundHalfEven (q : ℚ) : ⌊q⌋ ≤ roundHalfEven q := by
  unfold roundHalfEven
  split
  · exact le_refl _
  · split
    · omega
    · split
      · exact le_refl _
      · omega

theorem round1_le (q : ℚ) : round1 q ≤ q + 1 / 20 := by
  have h := roundHalfEven_le (10 * q)
  unfold round1
  linarith

theorem round1_ge (q : ℚ) : q - 1 / 20 ≤ round1 q := by
  have h := roundHalfEven_ge (10 * q)
  unfold round1
  linarith

theorem round1_nonneg {q : ℚ} (h : 0 ≤ q) : 0 ≤ round1 q := by
  have h1 : (0 : ℤ) ≤ ⌊10 * q⌋ := Int.floor_nonneg.mpr (by linarith)
  have h2 := floor_le_roundHalfEven (10 * q)
  have h3 : (0 : ℤ) ≤ roundHalfEven (10 * q) := le_trans h1 h2
  unfold round1
  have : (0 : ℚ) ≤ (roundHalfEven (10 * q) : ℚ) := by exact_mod_cast h3
  linarith

theorem roundHalfEven_le_floor_add_one (q : ℚ) : roundHalfEven q ≤ ⌊q⌋ + 1 := by
  unfold roundHalfEven
  split
  · omega
  · split
    · omega
    · split
      · omega
      · omega

theorem roundHalfEven_eq_floor_or (q : ℚ) :
    roundHalfEven q = ⌊q⌋ ∨ roundHalfEven q = ⌊q⌋ + 1 := by
  unfold roundHalfEven
  split
  · exact Or.inl rfl
  · split
    · exact Or.inr rfl
    · split
      · exact Or.inl rfl
      · exact Or.inr rfl

theorem half_le_of_roundHalfEven_eq_add_one {q : ℚ}
    (h : roundHalfEven q = ⌊q⌋ + 1) :
    1 / 2 ≤ q - ⌊q⌋ ∧ (q - ⌊q⌋ = 1 / 2 → ⌊q⌋ % 2 ≠ 0) := by
  unfold roundHalfEven at h
  split at h
  · omega
  · rename_i h1
    split at h
    · rename_i h2
      exact ⟨not_lt.mp h1, fun he => by rw [he] at h2; linarith⟩
    · split at h
      · omega
      · rename_i h3
        exact ⟨not_lt.mp h1, fun _ => h3⟩

theorem le_half_of_roundHalfEven_eq_floor {q : ℚ}
    (h : roundHalfEven q = ⌊q⌋) :
    q - ⌊q⌋ ≤ 1 / 2 ∧ (q - ⌊q⌋ = 1 / 2 → ⌊q⌋ % 2 = 0) := by
  unfold roundHalfEven at h
  split at h
  · rename_i h1
    exact ⟨le_of_lt h1, fun he => by rw [he] at h1; linarith⟩
  · rename_i h1
    split at h
    · omega
    · rename_i h2
      split at h
      · rename_i h3
        exact ⟨not_lt.mp h2, fun _ => h3⟩
      · omega

theorem roundHalfEven_mono {x y : ℚ} (hxy : x ≤ y) :
    roundHalfEven x ≤ roundHalfEven y := by
  have hf : ⌊x⌋ ≤ ⌊y⌋ := Int.floor_le_floor hxy
  rcases lt_or_eq_of_le hf with hlt | heq
  · have h1 := roundHalfEven_le_floor_add_one x
    have h2 := floor_le_roundHalfEven y
    omega
  · rcases roundHalfEven_eq_floor_or y with hy | hy
    · rcases roundHalfEven_eq_floor_or x with hx | hx
      · omega
      · obtain ⟨hxhalf, hxtie⟩ := half_le_of_roundHalfEven_eq_add_one hx
        obtain ⟨hyhalf, hytie⟩ := le_half_of_roundHalfEven_eq_floor hy
        have hcast : ((⌊x⌋ : ℚ)) = ((⌊y⌋ : ℚ)) := by exact_mod_cast heq
        have hrx : x - (⌊x⌋ : ℚ) = 1 / 2 := by
          have : x - (⌊x⌋ : ℚ) ≤ y - (⌊y⌋ : ℚ) := by rw [← hcast]; linarith
          linarith
        have hry : y - (⌊y⌋ : ℚ) = 1 / 2 := by
          have : x - (⌊x⌋ : ℚ) ≤ y - (⌊y⌋ : ℚ) := by rw [← hcast]; linarith
          linarith
        have h1 := hxtie hrx
        have h2 := hytie hry
        rw [heq] at h1
        exact absurd h2 h1
    · have h1 := roundHalfEven_le_floor_add_one x
      omega

theorem round1_mono {x y : ℚ} (hxy : x ≤ y) : round1 x ≤ round1 y := by
  have h := roundHalfEven_mono (show 10 * x ≤ 10 * y by linarith)
  have hc : ((roundHalfEven (10 * x) : ℤ) : ℚ) ≤ ((roundHalfEven (10 * y) : ℤ) : ℚ) := by
    exact_mod_cast h
  unfold round1
  linarith

theorem movingList_length (elapsed dist : List ℚ) :
    (movingList elapsed dist).length = elapsed.length := by
  simp [movingList]

theorem movingList_getD (elapsed dist : List ℚ) (i : Nat)
    (h : i < elapsed.length) :
    (movingList elapsed dist).getD i 0 = movingAt elapsed dist i := by
  have hlen : i < (movingList elapsed dist).length := by
    rw [movingList_length]; exact h
  rw [List.getD_eq_getElem _ _ hlen]
  simp [movingList]

theorem elapsedFromTimestamps_length (ts : List ℚ) :
    (elapsedFromTimestamps ts).length = ts.length := by
  simp [elapsedFromTimestamps]

theorem elapsedFromTimestamps_getD (ts : List ℚ) (i : Nat) (h : i < ts.length) :
    (elapsedFromTimestamps ts).getD i 0 = ts.getD i 0 - ts.getD 0 0 := by
  have hlen : i < (elapsedFromTimestamps ts).length := by
    rw [elapsedFromTimestamps_length]; exact h
  rw [List.getD_eq_getElem _ _ hlen]
  simp only [elapsedFromTimestamps, List.getElem_map]
  rw [List.getD_eq_getElem _ _ h]

theorem pauseCorrection_nonneg (elapsed dist : List ℚ) (i : Nat) :
    0 ≤ pauseCorrection elapsed dist i := by
  unfold pauseCorrection
  split
  · exact le_refl _
  · split
    · rename_i hc
      have := hc.1
      unfold PAUSE_TIME_THRESHOLD_S at this
      linarith
    · exact le_refl _

theorem cumulativePause_nonneg (elapsed dist : List ℚ) (i : Nat) :
    0 ≤ cumulativePause elapsed dist i := by
  induction i with
  | zero =>
      unfold cumulativePause
      exact pauseCorrection_nonneg _ _ _
  | succ j ih =>
      unfold cumulativePause
      have := pauseCorrection_nonneg elapsed dist (j + 1)
      linarith

theorem pauseCorrection_zero (elapsed dist : List ℚ) :
    pauseCorrection elapsed dist 0 = 0 := by
  unfold pauseCorrection
  rw [if_pos rfl]

theorem pauseCorrection_le_dt (elapsed dist : List ℚ) (i : Nat)
    (hdt : 0 ≤ elapsed.getD (i + 1) 0 - elapsed.getD i 0) :
    pauseCorrection elapsed dist (i + 1) ≤
      elapsed.getD (i + 1) 0 - elapsed.getD i 0 := by
  unfold pauseCorrection
  rw [if_neg (Nat.succ_ne_zero i)]
  simp only [Nat.add_sub_cancel]
  split
  · linarith
  · exact hdt

theorem cumulativePause_eq_sum (elapsed dist : List ℚ) (i : Nat) :
    cumulativePause elapsed dist i =
      ∑ j ∈ Finset.range (i + 1), pauseCorrection elapsed dist j := by
  induction i with
  | zero => simp [cumulativePause]
  | succ j ih =>
      rw [Finset.sum_range_succ, ← ih]
      rfl

theorem pauseCorrection_eq_inline (elapsed dist : List ℚ) (i : Nat) :
    pauseCorrection elapsed dist i =
      if i ≠ 0 ∧
          PAUSE_TIME_THRESHOLD_S ≤ elapsed.getD i 0 - elapsed.getD (i - 1) 0 ∧
          dist.getD i 0 - dist.getD (i - 1) 0 ≤ PAUSE_DISTANCE_THRESHOLD_M
      then elapsed.getD i 0 - elapsed.getD (i - 1) 0 - 1 else 0 := by
  unfold pauseCorrection
  by_cases h0 : i = 0
  · subst h0
    simp
  · rw [if_neg h0]
    by_cases hc : PAUSE_TIME_THRESHOLD_S ≤ elapsed.getD i 0 - elapsed.getD (i - 1) 0 ∧
        dist.getD i 0 - dist.getD (i - 1) 0 ≤ PAUSE_DISTANCE_THRESHOLD_M
    · rw [if_pos hc, if_pos ⟨h0, hc⟩]
    · rw [if_neg hc, if_neg (by tauto)]

theorem pauseCorrection_isTenth (elapsed dist : List ℚ)
    (he : ∀ j, isTenth (elapsed.getD j 0)) (i : Nat) :
    isTenth (pauseCorrection elapsed dist i) := by
  unfold pauseCorrection
  split
  · exact isTenth_zero
  · split
    · exact isTenth_sub (isTenth_sub (he i) (he (i - 1))) isTenth_one
    · exact isTenth_zero

theorem cumulativePause_isTenth (elapsed dist : List ℚ)
    (he : ∀ j, isTenth (elapsed.getD j 0)) (i : Nat) :
    isTenth (cumulativePause elapsed dist i) := by
  induction i with
  | zero => exact pauseCorrection_isTenth elapsed dist he 0
  | succ j ih =>
      unfold cumulativePause
      exact isTenth_add ih (pauseCorrection_isTenth elapsed dist he (j + 1))

theorem cumulativePause_le (e d : List ℚ)
    (hsorted : ∀ j, j + 1 < e.length → e.getD j 0 ≤ e.getD (j + 1) 0) :
    ∀ i, i < e.length → cumulativePause e d i ≤ e.getD i 0 - e.getD 0 0 := by
  intro i
  induction i with
  | zero =>
      intro _
      show pauseCorrection e d 0 ≤ _
      rw [pauseCorrection_zero]
      linarith
  | succ j ih =>
      intro h
      have hj : j < e.length := Nat.lt_of_succ_lt h
      have h1 := ih hj
      have h2 := pauseCorrection_le_dt e d j (by have := hsorted j h; linarith)
      show cumulativePause e d j + pauseCorrection e d (j + 1) ≤ _
      linarith

theorem chain'_le_getD {l : List ℚ} (h : List.Chain' (· ≤ ·) l) (j : Nat)
    (hj : j + 1 < l.length) :
    l.getD j 0 ≤ l.getD (j + 1) 0 := by
  rw [List.getD_eq_getElem _ _ (Nat.lt_of_succ_lt hj), List.getD_eq_getElem _ _ hj]
  have := List.chain'_iff_get.mp h j (by omega)
  simpa [List.get_eq_getElem] using this

theorem getD_mem_of_lt {l : List ℚ} {i : Nat} (h : i < l.length) :
    l.getD i 0 ∈ l := by
  rw [List.getD_eq_getElem _ _ h]
  exact List.getElem_mem h

theorem chain'_of_getD {l : List ℚ}
    (h : ∀ j, j + 1 < l.length → l.getD j 0 ≤ l.getD (j + 1) 0) :
    List.Chain' (· ≤ ·) l := by
  apply List.chain'_iff_get.mpr
  intro i hi
  have h1 := h i (by omega)
  rw [List.getD_eq_getElem _ _ (by omega), List.getD_eq_getElem _ _ (by omega)] at h1
  simpa [List.get_eq_getElem] using h1

/-- C3: the concrete pause scenario from the spec, together with the general
description of the moving-time computation: a sample with i positive is a
real pause exactly when its time delta is at least 10 seconds and its
distance delta is at most 1 meter, its correction is then dt minus one
second, every other sample (including sample 0) contributes zero, and the
moving elapsed time is the elapsed time minus the running sum of the
corrections, rounded to one decimal. -/
theorem C3_moving_time :
    movingList [0, 5, 20, 22] [0, 50, 51, 70] = [0, 5, 6, 8] ∧
    ∀ (elapsed dist : List ℚ) (i : Nat), i < elapsed.length →
      (movingList elapsed dist).getD i 0 =
        round1 (elapsed.getD i 0 -
          ∑ j ∈ Finset.range (i + 1),
            if j ≠ 0 ∧
                PAUSE_TIME_THRESHOLD_S ≤ elapsed.getD j 0 - elapsed.getD (j - 1) 0 ∧
                dist.getD j 0 - dist.getD (j - 1) 0 ≤ PAUSE_DISTANCE_THRESHOLD_M
            then elapsed.getD j 0 - elapsed.getD (j - 1) 0 - 1 else 0) := by
  constructor
  · norm_num [movingList, movingAt, List.range_succ, cumulativePause,
      pauseCorrection, PAUSE_TIME_THRESHOLD_S, PAUSE_DISTANCE_THRESHOLD_M,
      round1, roundHalfEven]
  · intro elapsed dist i h
    rw [movingList_getD _ _ _ h]
    unfold movingAt
    rw [cumulativePause_eq_sum]
    congr 1
    rw [sub_right_inj]
    exact Finset.sum_congr rfl fun j _ => pauseCorrection_eq_inline elapsed dist j

/-- C3 witness: the general clause instantiated at the two-sample list with
a 15-second stand-still between the samples. -/
theorem C3_moving_time_witness :
    (1 : Nat) < [(0 : ℚ), 15].length ∧
    (movingList [(0 : ℚ), 15] [(0 : ℚ), 0]).getD 1 0 =
      round1 (([(0 : ℚ), 15]).getD 1 0 -
        ∑ j ∈ Finset.range (1 + 1),
          if j ≠ 0 ∧
              PAUSE_TIME_THRESHOLD_S ≤
                ([(0 : ℚ), 15]).getD j 0 - ([(0 : ℚ), 15]).getD (j - 1) 0 ∧
              ([(0 : ℚ), 0]).getD j 0 - ([(0 : ℚ), 0]).getD (j - 1) 0 ≤
                PAUSE_DISTANCE_THRESHOLD_M
          then ([(0 : ℚ), 15]).getD j 0 - ([(0 : ℚ), 15]).getD (j - 1) 0 - 1
          else 0) :=
  ⟨by decide, C3_moving_time.2 [0, 15] [0, 0] 1 (by decide)⟩

/-- C4 counterexample: for the timestamp-sorted samples at 0 and 0.06
seconds with distance present, rounding to one decimal pushes the computed
moving time 0.1 above the elapsed time 0.06, so the claimed invariant
moving_elapsed_time_s less than or equal to elapsed_time_s fails. -/
theorem C4_counterexample :
    List.Chain' (· ≤ ·) [(0 : ℚ), 6 / 100] ∧
    (elapsedFromTimestamps [(0 : ℚ), 6 / 100]).getD 1 0 = 6 / 100 ∧
    (movingList (elapsedFromTimestamps [(0 : ℚ), 6 / 100]) [0, 0]).getD 1 0 = 1 / 10 ∧
    ¬ (movingList (elapsedFromTimestamps [(0 : ℚ), 6 / 100]) [0, 0]).getD 1 0 ≤
        (elapsedFromTimestamps [(0 : ℚ), 6 / 100]).getD 1 0 := by
  have he : elapsedFromTimestamps [(0 : ℚ), 6 / 100] = [0, 6 / 100] := by
    norm_num [elapsedFromTimestamps]
  have hm : (movingList (elapsedFromTimestamps [(0 : ℚ), 6 / 100]) [0, 0]).getD 1 0 =
      1 / 10 := by
    rw [he]
    norm_num [movingList, movingAt, List.range_succ, cumulativePause,
      pauseCorrection, PAUSE_TIME_THRESHOLD_S, PAUSE_DISTANCE_THRESHOLD_M,
      round1, roundHalfEven]
  refine ⟨by norm_num, by rw [he]; norm_num, hm, ?_⟩
  rw [hm, he]
  norm_num

/-- C4 amended: for every timestamp-sorted sample sequence, the moving
time column is non-decreasing and the first sample has moving time equal
to its elapsed time, unconditionally; the remaining two invariants —
moving time at most elapsed time, and the accumulated difference elapsed
minus moving non-decreasing — hold provided every timestamp is a whole
number of tenths of a second (so every value of the computation is exact
at one decimal and the rounding is the identity), which is exactly the
proviso the rounding counterexample forces on those two clauses. -/
theorem C4_invariants (ts dist : List ℚ)
    (hsort : List.Chain' (· ≤ ·) ts) :
    ((∀ t ∈ ts, isTenth t) → ∀ i, i < ts.length →
        (movingList (elapsedFromTimestamps ts) dist).getD i 0 ≤
          (elapsedFromTimestamps ts).getD i 0) ∧
    List.Chain' (· ≤ ·) (movingList (elapsedFromTimestamps ts) dist) ∧
    ((∀ t ∈ ts, isTenth t) → ∀ i, i + 1 < ts.length →
        (elapsedFromTimestamps ts).getD i 0 -
            (movingList (elapsedFromTimestamps ts) dist).getD i 0 ≤
          (elapsedFromTimestamps ts).getD (i + 1) 0 -
            (movingList (elapsedFromTimestamps ts) dist).getD (i + 1) 0) ∧
    (ts ≠ [] →
        (movingList (elapsedFromTimestamps ts) dist).getD 0 0 =
          (elapsedFromTimestamps ts).getD 0 0) := by
  set e := elapsedFromTimestamps ts with he_def
  have helen : e.length = ts.length := elapsedFromTimestamps_length ts
  have hesort : ∀ j, j + 1 < e.length → e.getD j 0 ≤ e.getD (j + 1) 0 := by
    intro j hj
    have hj2 : j + 1 < ts.length := by rw [← helen]; exact hj
    rw [he_def, elapsedFromTimestamps_getD _ _ (Nat.lt_of_succ_lt hj2),
      elapsedFromTimestamps_getD _ _ hj2]
    have := chain'_le_getD hsort j hj2
    linarith
  have hmoving : (∀ t ∈ ts, isTenth t) → ∀ i, i < ts.length →
      (movingList e dist).getD i 0 = e.getD i 0 - cumulativePause e dist i := by
    intro htenth i hi
    have hetenth : ∀ j, isTenth (e.getD j 0) := by
      intro j
      by_cases hj : j < e.length
      · have hj2 : j < ts.length := by rw [← helen]; exact hj
        rw [he_def, elapsedFromTimestamps_getD _ _ hj2]
        have h0 : 0 < ts.length := by omega
        exact isTenth_sub (htenth _ (getD_mem_of_lt hj2)) (htenth _ (getD_mem_of_lt h0))
      · rw [List.getD_eq_default _ _ (le_of_not_lt hj)]
        exact isTenth_zero
    rw [movingList_getD _ _ _ (by rw [helen]; exact hi)]
    unfold movingAt
    exact round1_eq_self
      (isTenth_sub (hetenth i) (cumulativePause_isTenth e dist hetenth i))
  refine ⟨?_, ?_, ?_, ?_⟩
  · intro htenth i hi
    rw [hmoving htenth i hi]
    have := cumulativePause_nonneg e dist i
    linarith
  · apply chain'_of_getD
    intro j hj
    have hj2 : j + 1 < ts.length := by
      rw [movingList_length, helen] at hj
      exact hj
    have hb1 : j < e.length := by rw [helen]; omega
    have hb2 : j + 1 < e.length := by rw [helen]; exact hj2
    rw [movingList_getD _ _ _ hb1, movingList_getD _ _ _ hb2]
    unfold movingAt
    apply round1_mono
    have hdt := hesort j hb2
    have hpc := pauseCorrection_le_dt e dist j (by linarith)
    have hstep : cumulativePause e dist (j + 1) =
        cumulativePause e dist j + pauseCorrection e dist (j + 1) := rfl
    linarith
  · intro htenth i hi
    rw [hmoving htenth i (Nat.lt_of_succ_lt hi), hmoving htenth (i + 1) hi]
    have hpc := pauseCorrection_nonneg e dist (i + 1)
    have hstep : cumulativePause e dist (i + 1) =
        cumulativePause e dist i + pauseCorrection e dist (i + 1) := rfl
    linarith
  · intro hne
    have h0 : 0 < ts.length := List.length_pos.mpr hne
    have he0 : e.getD 0 0 = 0 := by
      rw [he_def, elapsedFromTimestamps_getD _ _ h0, sub_self]
    rw [movingList_getD _ _ _ (by rw [helen]; exact h0)]
    unfold movingAt
    have hc : cumulativePause e dist 0 = 0 := by
      show pauseCorrection e dist 0 = 0
      exact pauseCorrection_zero e dist
    rw [hc, he0, sub_zero]
    exact round1_eq_self isTenth_zero

/-- C4 witness: the invariants instantiated at the concrete pause scenario,
extracting the unconditional monotonicity of the moving-time column and
the tenths-conditioned bound by elapsed time at the sample after the
pause. -/
theorem C4_invariants_witness :
    List.Chain' (· ≤ ·)
      (movingList (elapsedFromTimestamps [(0 : ℚ), 5, 20, 22]) [0, 50, 51, 70]) ∧
    (movingList (elapsedFromTimestamps [(0 : ℚ), 5, 20, 22]) [0, 50, 51, 70]).getD 2 0 ≤
      (elapsedFromTimestamps [(0 : ℚ), 5, 20, 22]).getD 2 0 :=
  ⟨(C4_invariants [0, 5, 20, 22] [0, 50, 51, 70]
      (by norm_num [List.chain'_cons])).2.1,
    (C4_invariants [0, 5, 20, 22] [0, 50, 51, 70]
      (by norm_num [List.chain'_cons])).1
      (by
        intro t ht
        simp only [List.mem_cons, List.not_mem_nil, or_false] at ht
        rcases ht with rfl | rfl | rfl | rfl
        · exact ⟨0, by norm_num⟩
        · exact ⟨50, by norm_num⟩
        · exact ⟨200, by norm_num⟩
        · exact ⟨220, by norm_num⟩)
      2 (by decide)⟩

theorem digitChar_toNat : ∀ n, n < 10 → (digitChar n).toNat = 48 + n := by
  decide

theorem decVal_append_digit (l : List Char) (c : Char) :
    decVal (l ++ [c]) = 10 * decVal l + (c.toNat - 48) := by
  induction l with
  | nil => simp [decVal]
  | cons x xs ih =>
      show decVal (x :: (xs ++ [c])) = _
      unfold decVal
      rw [ih, List.length_append]
      simp [decVal]
      ring

theorem decVal_decDigits (n : Nat) : decVal (decDigits n) = n := by
  induction n using Nat.strong_induction_on with
  | _ n ih =>
      rw [decDigits]
      split
      · rename_i h
        have hd := digitChar_toNat n h
        simp [decVal, hd]
      · rename_i h
        rw [decVal_append_digit, ih (n / 10) (Nat.div_lt_self (by omega) (by omega))]
        have hd := digitChar_toNat (n % 10) (Nat.mod_lt n (by omega))
        omega

theorem decDigits_ne_nil (n : Nat) : decDigits n ≠ [] := by
  rw [decDigits]
  split
  · simp
  · simp

theorem decVal_pad2 (n : Nat) : decVal (pad2 n) = n := by
  unfold pad2
  split
  · have h0 : ('0' : Char).toNat = 48 := rfl
    show decVal ('0' :: decDigits n) = n
    unfold decVal
    rw [h0, decVal_decDigits]
    omega
  · exact decVal_decDigits n

theorem decDigits_length_lt10 {n : Nat} (h : n < 10) :
    (decDigits n).length = 1 := by
  rw [decDigits, dif_pos h]
  rfl

theorem pad2_length {n : Nat} (h : n < 100) : (pad2 n).length = 2 := by
  unfold pad2
  split
  · rename_i h1
    rw [List.length_cons, decDigits_length_lt10 h1]
  · rename_i h1
    rw [decDigits, dif_neg h1, List.length_append,
      decDigits_length_lt10 (by omega : n / 10 < 10)]
    rfl

theorem pad2_inj {a b : Nat} (h : pad2 a = pad2 b) : a = b := by
  have := congrArg decVal h
  rwa [decVal_pad2, decVal_pad2] at this

theorem minSecChars_inj {a b : ℤ} (ha : 0 ≤ a) (hb : 0 ≤ b)
    (h : minSecChars a = minSecChars b) : a = b := by
  unfold minSecChars intPad2 at h
  rw [if_neg (not_lt.mpr (Int.ediv_nonneg ha (by norm_num))),
    if_neg (not_lt.mpr (Int.emod_nonneg a (by norm_num))),
    if_neg (not_lt.mpr (Int.ediv_nonneg hb (by norm_num))),
    if_neg (not_lt.mpr (Int.emod_nonneg b (by norm_num)))] at h
  have hs1 : (a % 60).toNat < 60 := by
    have h1 := Int.emod_lt_of_pos a (show (0 : ℤ) < 60 by norm_num)
    omega
  have hs2 : (b % 60).toNat < 60 := by
    have h1 := Int.emod_lt_of_pos b (show (0 : ℤ) < 60 by norm_num)
    omega
  have hlen : (pad2 (a / 60).toNat).length = (pad2 (b / 60).toNat).length := by
    have hl := congrArg List.length h
    simp only [List.length_append, List.length_cons] at hl
    rw [pad2_length (by omega : (a % 60).toNat < 100),
      pad2_length (by omega : (b % 60).toNat < 100)] at hl
    omega
  obtain ⟨h1, h2⟩ := List.append_inj h hlen
  have hM : (a / 60).toNat = (b / 60).toNat := pad2_inj h1
  have h3 : pad2 (a % 60).toNat = pad2 (b % 60).toNat := by
    injection h2
  have hS : (a % 60).toNat = (b % 60).toNat := pad2_inj h3
  omega

theorem msTail_length {total : ℤ} (_h : 0 ≤ total) :
    (msTail total).length = 5 := by
  unfold msTail intPad2
  have hm0 : 0 ≤ (total % 3600) / 60 :=
    Int.ediv_nonneg (Int.emod_nonneg total (by norm_num)) (by norm_num)
  have hm1 : (total % 3600) / 60 < 60 := by
    have := Int.emod_lt_of_pos total (show (0 : ℤ) < 3600 by norm_num)
    have := Int.emod_nonneg total (show (3600 : ℤ) ≠ 0 by norm_num)
    omega
  have hs0 : 0 ≤ total % 60 := Int.emod_nonneg total (by norm_num)
  have hs1 : total % 60 < 60 := Int.emod_lt_of_pos total (by norm_num)
  rw [if_neg (not_lt.mpr hm0), if_neg (not_lt.mpr hs0), List.length_append,
    pad2_length (by omega : ((total % 3600) / 60).toNat < 100), List.length_cons,
    pad2_length (by omega : (total % 60).toNat < 100)]

theorem msTail_inj {a b : ℤ} (_ha : 0 ≤ a) (_hb : 0 ≤ b)
    (h : msTail a = msTail b) :
    (a % 3600) / 60 = (b % 3600) / 60 ∧ a % 60 = b % 60 := by
  unfold msTail intPad2 at h
  have hma : 0 ≤ (a % 3600) / 60 :=
    Int.ediv_nonneg (Int.emod_nonneg a (by norm_num)) (by norm_num)
  have hmb : 0 ≤ (b % 3600) / 60 :=
    Int.ediv_nonneg (Int.emod_nonneg b (by norm_num)) (by norm_num)
  have hsa : 0 ≤ a % 60 := Int.emod_nonneg a (by norm_num)
  have hsb : 0 ≤ b % 60 := Int.emod_nonneg b (by norm_num)
  have hsa1 : a % 60 < 60 := Int.emod_lt_of_pos a (by norm_num)
  have hsb1 : b % 60 < 60 := Int.emod_lt_of_pos b (by norm_num)
  have hma1 : (a % 3600) / 60 < 60 := by
    have := Int.emod_lt_of_pos a (show (0 : ℤ) < 3600 by norm_num)
    have := Int.emod_nonneg a (show (3600 : ℤ) ≠ 0 by norm_num)
    omega
  have hmb1 : (b % 3600) / 60 < 60 := by
    have := Int.emod_lt_of_pos b (show (0 : ℤ) < 3600 by norm_num)
    have := Int.emod_nonneg b (show (3600 : ℤ) ≠ 0 by norm_num)
    omega
  rw [if_neg (not_lt.mpr hma), if_neg (not_lt.mpr hsa),
    if_neg (not_lt.mpr hmb), if_neg (not_lt.mpr hsb)] at h
  have hlen : (pad2 ((a % 3600) / 60).toNat).length =
      (pad2 ((b % 3600) / 60).toNat).length := by
    rw [pad2_length (by omega), pad2_length (by omega)]
  obtain ⟨h1, h2⟩ := List.append_inj h hlen
  have hM := pad2_inj h1
  have h3 : pad2 (a % 60).toNat = pad2 (b % 60).toNat := by
    injection h2
  have hS := pad2_inj h3
  constructor
  · omega
  · omega

theorem hmsChars_inj {a b : ℤ} (ha : 0 ≤ a) (hb : 0 ≤ b)
    (h : hmsChars a = hmsChars b) : a = b := by
  unfold hmsChars at h
  have hha : 0 ≤ a / 3600 := Int.ediv_nonneg ha (by norm_num)
  have hhb : 0 ≤ b / 3600 := Int.ediv_nonneg hb (by norm_num)
  by_cases hA : 0 < a / 3600 <;> by_cases hB : 0 < b / 3600
  · rw [if_pos hA, if_pos hB] at h
    unfold intChars at h
    rw [if_neg (not_lt.mpr hha), if_neg (not_lt.mpr hhb)] at h
    have hlen : (decDigits (a / 3600).toNat).length =
        (decDigits (b / 3600).toNat).length := by
      have hl := congrArg List.length h
      simp only [List.length_append, List.length_cons] at hl
      rw [msTail_length ha, msTail_length hb] at hl
      omega
    obtain ⟨h1, h2⟩ := List.append_inj h hlen
    have hH : (a / 3600).toNat = (b / 3600).toNat := by
      have := congrArg decVal h1
      rwa [decVal_decDigits, decVal_decDigits] at this
    have h3 : msTail a = msTail b := by
      injection h2
    obtain ⟨hM, hS⟩ := msTail_inj ha hb h3
    omega
  · rw [if_pos hA, if_neg hB] at h
    have hl := congrArg List.length h
    simp only [List.length_append, List.length_cons] at hl
    rw [msTail_length ha, msTail_length hb] at hl
    have := List.length_pos.mpr (decDigits_ne_nil (a / 3600).toNat)
    unfold intChars at hl
    rw [if_neg (not_lt.mpr hha)] at hl
    omega
  · rw [if_neg hA, if_pos hB] at h
    have hl := congrArg List.length h
    simp only [List.length_append, List.length_cons] at hl
    rw [msTail_length ha, msTail_length hb] at hl
    have := List.length_pos.mpr (decDigits_ne_nil (b / 3600).toNat)
    unfold intChars at hl
    rw [if_neg (not_lt.mpr hhb)] at hl
    omega
  · rw [if_neg hA, if_neg hB] at h
    obtain ⟨hM, hS⟩ := msTail_inj ha hb h
    omega

theorem foldl_overwrite_cases (P : Nat → Prop) [DecidablePred P] (n : Nat) :
    ((List.range n).foldl (fun acc k => if P k then k + 1 else acc) 0 = 0 ∧
        ∀ k, k < n → ¬ P k) ∨
      (∃ k, k < n ∧ P k ∧
        (List.range n).foldl (fun acc k => if P k then k + 1 else acc) 0 = k + 1) := by
  induction n with
  | zero => exact Or.inl ⟨rfl, by omega⟩
  | succ m ih =>
      rw [List.range_succ, List.foldl_append, List.foldl_cons, List.foldl_nil]
      by_cases hP : P m
      · exact Or.inr ⟨m, by omega, hP, by rw [if_pos hP]⟩
      · rw [if_neg hP]
        rcases ih with ⟨h0, hnone⟩ | ⟨k, hk, hPk, heq⟩
        · refine Or.inl ⟨h0, fun k hk => ?_⟩
          rcases Nat.lt_succ_iff_lt_or_eq.mp hk with h | rfl
          · exact hnone k h
          · exact hP
        · exact Or.inr ⟨k, by omega, hPk, heq⟩

theorem foldl_overwrite_unique (P : Nat → Prop) [DecidablePred P] (n k : Nat)
    (hk : k < n) (hPk : P k) (huniq : ∀ j, j < n → P j → j = k) :
    (List.range n).foldl (fun acc j => if P j then j + 1 else acc) 0 = k + 1 := by
  rcases foldl_overwrite_cases P n with ⟨_, hnone⟩ | ⟨j, hj, hPj, heq⟩
  · exact absurd hPk (hnone k hk)
  · rw [heq, huniq j hj hPj]

theorem chain'_getD_mono {l : List ℚ} (h : List.Chain' (· ≤ ·) l) :
    ∀ i j, i ≤ j → j < l.length → l.getD i 0 ≤ l.getD j 0 := by
  intro i j hij hj
  rcases eq_or_lt_of_le hij with rfl | hlt
  · exact le_refl _
  · have hp := List.chain'_iff_pairwise.mp h
    have hg := List.pairwise_iff_getElem.mp hp i j (by omega) hj hlt
    rw [List.getD_eq_getElem _ _ (by omega : i < l.length),
      List.getD_eq_getElem _ _ hj]
    exact hg

theorem lapMatch_unique {starts : List ℚ} {maxTs t : ℚ}
    (hmono : ∀ i j, i ≤ j → j < starts.length → starts.getD i 0 ≤ starts.getD j 0)
    {k₁ k₂ : Nat} (h1 : k₁ < starts.length) (h2 : k₂ < starts.length)
    (m1 : lapMatch starts maxTs t k₁) (m2 : lapMatch starts maxTs t k₂) :
    k₁ = k₂ := by
  have aux : ∀ a b, a < starts.length → b < starts.length →
      lapMatch starts maxTs t a → lapMatch starts maxTs t b → a < b → False := by
    intro a b _ hb ma mb hab
    have hb1 : a + 1 < starts.length := by omega
    have hlt := ma.2
    rw [if_pos hb1] at hlt
    have hle : starts.getD (a + 1) 0 ≤ starts.getD b 0 := hmono (a + 1) b (by omega) hb
    have hbt := mb.1
    linarith
  rcases Nat.lt_trichotomy k₁ k₂ with h | h | h
  · exact (aux k₁ k₂ h1 h2 m1 m2 h).elim
  · exact h
  · exact ((aux k₂ k₁ h2 h1 m2 m1 h).elim)

theorem findGreatest_speed_spec (starts : List ℚ) (t : ℚ) (b : Nat)
    (h0 : starts.getD 0 0 ≤ t) :
    starts.getD (Nat.findGreatest (fun j => starts.getD j 0 ≤ t) b) 0 ≤ t := by
  by_cases hz : Nat.findGreatest (fun j => starts.getD j 0 ≤ t) b = 0
  · rw [hz]
    exact h0
  · exact Nat.findGreatest_of_ne_zero rfl hz

theorem findGreatest_speed_is_greatest (starts : List ℚ) (t : ℚ) (b k : Nat)
    (hk : Nat.findGreatest (fun j => starts.getD j 0 ≤ t) b < k) (hkb : k ≤ b) :
    ¬ starts.getD k 0 ≤ t :=
  Nat.findGreatest_is_greatest hk hkb

theorem le_findGreatest_speed (starts : List ℚ) (t : ℚ) (b m : Nat)
    (hmb : m ≤ b) (hm : starts.getD m 0 ≤ t) :
    m ≤ Nat.findGreatest (fun j => starts.getD j 0 ≤ t) b :=
  Nat.le_findGreatest hmb hm

theorem lapNumber_eq (starts : List ℚ) (maxTs t : ℚ) (hne : starts ≠ [])
    (hmono : ∀ i j, i ≤ j → j < starts.length → starts.getD i 0 ≤ starts.getD j 0)
    (h0 : starts.getD 0 0 ≤ t) (hmax : t ≤ maxTs) :
    lapNumber starts maxTs t =
      Nat.findGreatest (fun k => starts.getD k 0 ≤ t) (starts.length - 1) + 1 := by
  have hlpos : 0 < starts.length := List.length_pos.mpr hne
  have hKle : Nat.findGreatest (fun k => starts.getD k 0 ≤ t) (starts.length - 1) ≤
      starts.length - 1 := Nat.findGreatest_le _
  have hPK : starts.getD
      (Nat.findGreatest (fun k => starts.getD k 0 ≤ t) (starts.length - 1)) 0 ≤ t :=
    findGreatest_speed_spec starts t _ h0
  have hgr : ∀ k, Nat.findGreatest (fun j => starts.getD j 0 ≤ t) (starts.length - 1) < k →
      k ≤ starts.length - 1 → ¬ starts.getD k 0 ≤ t :=
    fun k hk hkb => findGreatest_speed_is_greatest starts t _ k hk hkb
  set K := Nat.findGreatest (fun k => starts.getD k 0 ≤ t) (starts.length - 1) with hK
  have hKlen : K < starts.length := by omega
  have hmatch : lapMatch starts maxTs t K := by
    refine ⟨hPK, ?_⟩
    by_cases hK1 : K + 1 < starts.length
    · rw [if_pos hK1]
      by_contra hcon
      push_neg at hcon
      exact hgr (K + 1) (by omega) (by omega) hcon
    · rw [if_neg hK1]
      linarith
  have huniq : ∀ j, j < starts.length → lapMatch starts maxTs t j → j = K :=
    fun j hj hmj => lapMatch_unique hmono hj hKlen hmj hmatch
  have hfold : lapFold starts maxTs t = K + 1 :=
    foldl_overwrite_unique _ _ K hKlen hmatch huniq
  unfold lapNumber
  rw [hfold, if_neg (Nat.succ_ne_zero K)]

theorem le_foldl_max (l : List ℚ) (a : ℚ) :
    a ≤ l.foldl max a ∧ ∀ x ∈ l, x ≤ l.foldl max a := by
  induction l generalizing a with
  | nil => exact ⟨le_refl a, by simp⟩
  | cons y ys ih =>
      constructor
      · exact le_trans (le_max_left a y) (ih (max a y)).1
      · intro x hx
        rcases List.mem_cons.mp hx with rfl | hx
        · exact le_trans (le_max_right a x) (ih (max a x)).1
        · exact (ih (max a y)).2 x hx

theorem maxTimestamp_ge {ts : List ℚ} {t : ℚ} (ht : t ∈ ts) :
    t ≤ maxTimestamp ts :=
  (le_foldl_max ts (ts.getD 0 0)).2 t ht

theorem chain'_of_getD_nat {l : List Nat}
    (h : ∀ j, j + 1 < l.length → l.getD j 0 ≤ l.getD (j + 1) 0) :
    List.Chain' (· ≤ ·) l := by
  apply List.chain'_iff_get.mpr
  intro i hi
  have h1 := h i (by omega)
  rw [List.getD_eq_getElem _ _ (by omega), List.getD_eq_getElem _ _ (by omega)] at h1
  simpa [List.get_eq_getElem] using h1

/-- C5 counterexample: two sorted laps starting at 10 and 20 and two sorted
samples at 5 and 15; the sample at 5 matches no interval and falls back to
lap 2, while the sample at 15 belongs to lap 1, so the lap_number column
(2, 1) is not non-decreasing. -/
theorem C5_counterexample :
    List.Chain' (· ≤ ·) [(10 : ℚ), 20] ∧
    List.Chain' (· ≤ ·) [(5 : ℚ), 15] ∧
    add_lap_info_lap_numbers [10, 20] [5, 15] = [2, 1] ∧
    ¬ List.Chain' (· ≤ ·) (add_lap_info_lap_numbers [10, 20] [5, 15]) := by
  have hval : add_lap_info_lap_numbers [(10 : ℚ), 20] [5, 15] = [2, 1] := by
    norm_num [add_lap_info_lap_numbers, lapNumber, lapFold, lapMatch, maxTimestamp,
      List.range_succ, max_def]
  refine ⟨by norm_num [List.chain'_cons], by norm_num [List.chain'_cons], hval, ?_⟩
  rw [hval]
  simp [List.chain'_cons]

/-- C5 amended: for N laps with usable sorted start times and a nonempty
sorted sample sequence, every sample receives a lap number between 1 and N,
a sample inside the half-open interval of lap k receives exactly k, a
sample matching no interval falls back to the last lap N, and, provided
every sample timestamp is at least the first lap start (the amendment
forced by the counterexample), the lap_number column is non-decreasing. -/
theorem C5_lap_assignment (starts ts : List ℚ)
    (hs_ne : starts ≠ []) (hs_sorted : List.Chain' (· ≤ ·) starts)
    (_ht_ne : ts ≠ []) (ht_sorted : List.Chain' (· ≤ ·) ts) :
    (∀ t ∈ ts, 1 ≤ lapNumber starts (maxTimestamp ts) t ∧
        lapNumber starts (maxTimestamp ts) t ≤ starts.length) ∧
    (∀ t ∈ ts, ∀ k, k < starts.length → lapMatch starts (maxTimestamp ts) t k →
        lapNumber starts (maxTimestamp ts) t = k + 1) ∧
    (∀ t ∈ ts, (∀ k, k < starts.length → ¬ lapMatch starts (maxTimestamp ts) t k) →
        lapNumber starts (maxTimestamp ts) t = starts.length) ∧
    ((∀ t ∈ ts, starts.getD 0 0 ≤ t) →
        List.Chain' (· ≤ ·) (add_lap_info_lap_numbers starts ts)) := by
  have hlpos : 0 < starts.length := List.length_pos.mpr hs_ne
  have hmono := chain'_getD_mono hs_sorted
  refine ⟨?_, ?_, ?_, ?_⟩
  · intro t _
    unfold lapNumber
    rcases foldl_overwrite_cases (lapMatch starts (maxTimestamp ts) t)
        starts.length with ⟨h0, _⟩ | ⟨k, hk, _, heq⟩
    · unfold lapFold
      rw [h0, if_pos rfl]
      omega
    · unfold lapFold
      rw [heq, if_neg (Nat.succ_ne_zero k)]
      omega
  · intro t _ k hk hmk
    have huniq : ∀ j, j < starts.length → lapMatch starts (maxTimestamp ts) t j → j = k :=
      fun j hj hmj => lapMatch_unique hmono hj hk hmj hmk
    have hfold : lapFold starts (maxTimestamp ts) t = k + 1 :=
      foldl_overwrite_unique _ _ k hk hmk huniq
    unfold lapNumber
    rw [hfold, if_neg (Nat.succ_ne_zero k)]
  · intro t _ hnone
    rcases foldl_overwrite_cases (lapMatch starts (maxTimestamp ts) t)
        starts.length with ⟨h0, _⟩ | ⟨k, hk, hPk, _⟩
    · unfold lapNumber lapFold
      rw [h0, if_pos rfl]
    · exact absurd hPk (hnone k hk)
  · intro hge
    unfold add_lap_info_lap_numbers
    apply chain'_of_getD_nat
    intro j hj
    rw [List.length_map] at hj
    have hj1 : j < ts.length := by omega
    have hmap : ∀ i, i < ts.length →
        (ts.map (lapNumber starts (maxTimestamp ts))).getD i 0 =
          lapNumber starts (maxTimestamp ts) (ts.getD i 0) := by
      intro i hi
      rw [List.getD_eq_getElem _ _ (by simpa using hi), List.getElem_map,
        List.getD_eq_getElem _ _ hi]
    rw [hmap j hj1, hmap (j + 1) hj]
    have ht1 : ts.getD j 0 ∈ ts := getD_mem_of_lt hj1
    have ht2 : ts.getD (j + 1) 0 ∈ ts := getD_mem_of_lt hj
    have h12 : ts.getD j 0 ≤ ts.getD (j + 1) 0 := chain'_le_getD ht_sorted j hj
    rw [lapNumber_eq starts (maxTimestamp ts) _ hs_ne hmono (hge _ ht1)
        (maxTimestamp_ge ht1),
      lapNumber_eq starts (maxTimestamp ts) _ hs_ne hmono (hge _ ht2)
        (maxTimestamp_ge ht2)]
    have hfg : Nat.findGreatest (fun k => starts.getD k 0 ≤ ts.getD j 0)
          (starts.length - 1) ≤
        Nat.findGreatest (fun k => starts.getD k 0 ≤ ts.getD (j + 1) 0)
          (starts.length - 1) :=
      le_findGreatest_speed starts (ts.getD (j + 1) 0) (starts.length - 1) _
        (Nat.findGreatest_le _)
        (le_trans (findGreatest_speed_spec starts (ts.getD j 0) _ (hge _ ht1)) h12)
    omega

/-- C5 witness: two laps starting at 0 and 10 and three sorted samples,
instantiating the amended claim and extracting the monotone lap_number
column. -/
theorem C5_lap_assignment_witness :
    List.Chain' (· ≤ ·) (add_lap_info_lap_numbers [(0 : ℚ), 10] [0, 5, 10]) :=
  (C5_lap_assignment [0, 10] [0, 5, 10] (by decide)
    (by norm_num [List.chain'_cons]) (by decide)
    (by norm_num [List.chain'_cons])).2.2.2
    (by
      intro t ht
      simp only [List.mem_cons, List.not_mem_nil, or_false] at ht
      rcases ht with rfl | rfl | rfl <;> norm_num)

theorem pyInt_floor_of_nonneg {q : ℚ} (h : 0 ≤ q) : pyInt q = ⌊q⌋ :=
  if_neg (not_lt.mpr h)

theorem pauseCorrection_pos (elapsed dist : List ℚ) (i : Nat)
    (h : 0 < pauseCorrection elapsed dist i) :
    9 ≤ pauseCorrection elapsed dist i := by
  unfold pauseCorrection at h ⊢
  split at h
  · linarith
  · split at h
    · rename_i hsplit hc
      rw [if_neg hsplit, if_pos hc]
      have := hc.1
      unfold PAUSE_TIME_THRESHOLD_S at this
      linarith
    · linarith

theorem cumulativePause_ge_nine (elapsed dist : List ℚ) (i : Nat)
    (h : 0 < cumulativePause elapsed dist i) :
    9 ≤ cumulativePause elapsed dist i := by
  induction i with
  | zero =>
      have hz : cumulativePause elapsed dist 0 = 0 := by
        show pauseCorrection elapsed dist 0 = 0
        exact pauseCorrection_zero elapsed dist
      rw [hz] at h
      linarith
  | succ j ih =>
      have hstep : cumulativePause elapsed dist (j + 1) =
          cumulativePause elapsed dist j + pauseCorrection elapsed dist (j + 1) := rfl
      by_cases hj : 0 < cumulativePause elapsed dist j
      · have h9 := ih hj
        have hpc := pauseCorrection_nonneg elapsed dist (j + 1)
        rw [hstep]
        linarith
      · have hj0 : cumulativePause elapsed dist j = 0 :=
          le_antisymm (not_lt.mp hj) (cumulativePause_nonneg elapsed dist j)
        rw [hstep, hj0] at h ⊢
        have := pauseCorrection_pos elapsed dist (j + 1) (by linarith)
        linarith

theorem moving_floor_lt (e d : List ℚ) (i : Nat)
    (h0 : e.getD 0 0 = 0) (hsort : List.Chain' (· ≤ ·) e) (hi : i < e.length)
    (hpause : 0 < cumulativePause e d i) :
    0 ≤ (movingList e d).getD i 0 ∧ 0 ≤ e.getD i 0 ∧
      ⌊(movingList e d).getD i 0⌋ < ⌊e.getD i 0⌋ := by
  have hcum9 := cumulativePause_ge_nine e d i hpause
  have hcumle := cumulativePause_le e d (fun j hj => chain'_le_getD hsort j hj) i hi
  rw [h0, sub_zero] at hcumle
  have hx0 : 0 ≤ e.getD i 0 - cumulativePause e d i := by linarith
  have he0 : 0 ≤ e.getD i 0 := by linarith
  have hmA : (movingList e d).getD i 0 =
      round1 (e.getD i 0 - cumulativePause e d i) := by
    rw [movingList_getD _ _ _ hi]
    rfl
  have hm0 : 0 ≤ (movingList e d).getD i 0 := by
    rw [hmA]
    exact round1_nonneg hx0
  refine ⟨hm0, he0, ?_⟩
  have h1 : round1 (e.getD i 0 - cumulativePause e d i) ≤ e.getD i 0 - 8 := by
    have := round1_le (e.getD i 0 - cumulativePause e d i)
    linarith
  have h2 : ⌊round1 (e.getD i 0 - cumulativePause e d i)⌋ ≤
      ⌊e.getD i 0 - ((8 : ℤ) : ℚ)⌋ := by
    apply Int.floor_le_floor
    push_cast
    linarith
  rw [Int.floor_sub_int] at h2
  rw [hmA]
  omega

/-- C9: with zero sample records both pipelines fail with the fatal
no-data error before any table is produced; an error value is the whole
result, so no partial or empty table accompanies it. -/
theorem C9_no_data_error :
    parse_fit [] = Except.error "Aucun record trouvé dans le fichier .fit" ∧
    parse_fit_records [] = Except.error "Aucun record trouvé dans le fichier .fit" :=
  ⟨rfl, rfl⟩

/-- C8: on records carrying timestamps but no distance field, the moving
stage is skipped in both files, but extract_fit_file.py then raises a
KeyError in its formatting step, which reads the absent
moving_elapsed_time_s column under a guard that only checked
elapsed_time_s; the V3 variant guards on the moving column itself and
completes with the moving and formatted columns absent, as the claim
describes. -/
theorem C8_distance_absent :
    parse_fit [⟨some 0, none⟩, ⟨some 5, none⟩] =
      Except.error "KeyError: moving_elapsed_time_s" ∧
    parse_fit_records [⟨some 0, none⟩, ⟨some 5, none⟩] =
      Except.ok
        { elapsed_time_s := some ((elapsedFromTimestamps [0, 5]).map round1)
          distance := none
          moving_elapsed_time_s := none
          elapsed_time_hms := none } := by
  have hts : column SampleRow.timestamp [⟨some 0, none⟩, ⟨some 5, none⟩] =
      some [0, 5] := by
    rw [column, if_neg (by simp), if_pos]
    · rfl
    · intro r hr
      simp only [List.mem_cons, List.not_mem_nil, or_false] at hr
      rcases hr with rfl | rfl <;> rfl
  have hd : column SampleRow.distance [⟨some 0, none⟩, ⟨some 5, none⟩] = none := by
    rw [column, if_neg (by simp), if_neg]
    intro hall
    have := hall ⟨some 0, none⟩ (by simp)
    simp at this
  constructor
  · rw [parse_fit, if_neg (by simp), hts, hd]
  · rw [parse_fit_records, if_neg (by simp), hts, hd]

/-- C10: the displayed time column is the formatter applied to the moving
time column in both files; and whenever some pause has been discounted by
sample i (the cumulative pause is positive), the formatted moving time
differs from the formatted elapsed time as a string, for both the MM colon
SS formatter and the H colon MM colon SS formatter. -/
theorem C10_formatted_from_moving :
    (∀ rows t m, parse_fit rows = Except.ok t →
      t.moving_elapsed_time_s = some m →
      t.elapsed_time_min_sec = some (m.map format_seconds_to_min_sec)) ∧
    (∀ rows t m, parse_fit_records rows = Except.ok t →
      t.moving_elapsed_time_s = some m →
      t.elapsed_time_hms = some (m.map format_seconds_to_hms)) ∧
    (∀ (e d : List ℚ) (i : Nat), e.getD 0 0 = 0 → List.Chain' (· ≤ ·) e →
      i < e.length → 0 < cumulativePause e d i →
      format_seconds_to_min_sec ((movingList e d).getD i 0) ≠
        format_seconds_to_min_sec (e.getD i 0)) ∧
    (∀ (e d : List ℚ) (i : Nat), e.getD 0 0 = 0 → List.Chain' (· ≤ ·) e →
      i < e.length → 0 < cumulativePause e d i →
      format_seconds_to_hms ((movingList e d).getD i 0) ≠
        format_seconds_to_hms (e.getD i 0)) := by
  refine ⟨?_, ?_, ?_, ?_⟩
  · intro rows t m hok hm
    rw [parse_fit] at hok
    split at hok
    · exact absurd hok (by simp)
    · split at hok
      · rw [Except.ok.injEq] at hok
        subst hok
        have hm2 := Option.some.inj hm
        subst hm2
        rfl
      · exact absurd hok (by simp)
      · rw [Except.ok.injEq] at hok
        subst hok
        exact absurd hm (by simp)
  · intro rows t m hok hm
    rw [parse_fit_records] at hok
    split at hok
    · exact absurd hok (by simp)
    · split at hok
      · rw [Except.ok.injEq] at hok
        subst hok
        have hm2 := Option.some.inj hm
        subst hm2
        rfl
      · rw [Except.ok.injEq] at hok
        subst hok
        exact absurd hm (by simp)
      · rw [Except.ok.injEq] at hok
        subst hok
        exact absurd hm (by simp)
  · intro e d i h0 hsort hi hpause
    obtain ⟨hm0, he0, hlt⟩ := moving_floor_lt e d i h0 hsort hi hpause
    intro heq
    have hdata : minSecChars (pyInt ((movingList e d).getD i 0)) =
        minSecChars (pyInt (e.getD i 0)) := congrArg String.data heq
    rw [pyInt_floor_of_nonneg hm0, pyInt_floor_of_nonneg he0] at hdata
    have := minSecChars_inj (Int.floor_nonneg.mpr hm0) (Int.floor_nonneg.mpr he0) hdata
    omega
  · intro e d i h0 hsort hi hpause
    obtain ⟨hm0, he0, hlt⟩ := moving_floor_lt e d i h0 hsort hi hpause
    intro heq
    have hdata : hmsChars (pyInt ((movingList e d).getD i 0)) =
        hmsChars (pyInt (e.getD i 0)) := congrArg String.data heq
    rw [pyInt_floor_of_nonneg hm0, pyInt_floor_of_nonneg he0] at hdata
    have := hmsChars_inj (Int.floor_nonneg.mpr hm0) (Int.floor_nonneg.mpr he0) hdata
    omega

/-- C10 witness: the MM colon SS difference clause instantiated at the
concrete pause scenario, at the sample right after the discounted pause. -/
theorem C10_formatted_from_moving_witness :
    format_seconds_to_min_sec
        ((movingList [(0 : ℚ), 5, 20, 22] [0, 50, 51, 70]).getD 2 0) ≠
      format_seconds_to_min_sec (([(0 : ℚ), 5, 20, 22]).getD 2 0) :=
  C10_formatted_from_moving.2.2.1 [0, 5, 20, 22] [0, 50, 51, 70] 2 rfl
    (by norm_num [List.chain'_cons]) (by decide)
    (by norm_num [cumulativePause, pauseCorrection,
      PAUSE_TIME_THRESHOLD_S, PAUSE_DISTANCE_THRESHOLD_M])
